import Mathlib

/-!
Shallow embedding of the core persistence code of the eventsourcing repository:
`PythonObjectsStoredEventRepository` (infrastructure/stored_events/
python_objects_stored_events.py), `EventStore` (infrastructure/event_store.py)
and the `Example` entity (example/domainmodel.py), together with theorems
settling the claims about them.
-/

/-- Serialized body of a stored event (the `event_attrs` string of the
`StoredEvent` namedtuple).  The repository code never inspects it; we keep the
two components the claims speak about, namely the entity version recorded by
the sequenced-item mapper and an opaque payload. -/
structure EventAttrs where
  entity_version : Nat
  payload : String
deriving DecidableEq, Repr

/-- A stored event record, per the `StoredEvent` namedtuple
(`event_id`, `stored_entity_id`, `event_topic`, `event_attrs`).  The UUID1
`event_id` is represented by its timestamp component, a natural number. -/
structure StoredEvent where
  event_id : Nat
  stored_entity_id : String
  event_topic : String
  event_attrs : EventAttrs
deriving DecidableEq, Repr

/-- Modelled from the spec: `timestamp_from_uuid` (eventsourcing/utils/time.py,
not under src/) extracts the time component of a UUID1.  Event ids are
represented here directly by that timestamp, so the extraction is the
identity; all the repository ever does with it is compare timestamps. -/
def timestamp_from_uuid (event_id : Nat) : Nat := event_id

/-- Exceptions raised by the repository code: the two `ConcurrencyError`
messages of `append` ("Not yet stored version ..." and "Already stored
version ...") and Python's `KeyError`, raised by `del` on a missing key. -/
inductive PErr where
  | concurrencyNotYetStored
  | concurrencyAlreadyStored
  | keyError
deriving DecidableEq, Repr

/-- Update of a Python dict at a single key.  The code never iterates over any
of its dicts, only reads and writes single keys, so partial maps are a
faithful model. -/
def dUpdate {K V : Type} [DecidableEq K] (m : K → Option V) (k : K) (v : V) :
    K → Option V :=
  fun k' => if k' = k then some v else m k'

/-- Deletion of a key from a Python dict. -/
def dRemove {K V : Type} [DecidableEq K] (m : K → Option V) (k : K) :
    K → Option V :=
  fun k' => if k' = k then none else m k'

/-- State of a `PythonObjectsStoredEventRepository`: the `_by_id` index from
event id to stored event, the `_by_stored_entity_id` index from entity id to
its list of stored events, and the `_entity_versions` defaultdict.  The inner
per-version iterators `chain([0], cycle([1]))` yield 0 exactly once, so all
the code can observe of the inner dict is which version keys have been
accessed; we record those keys as a list in insertion order. -/
structure Repo where
  by_id : Nat → Option StoredEvent
  by_stored_entity_id : String → Option (List StoredEvent)
  entity_versions : String → Option (List Nat)

/-- A freshly constructed repository: all three dicts empty. -/
def emptyRepo : Repo :=
  { by_id := fun _ => none
    by_stored_entity_id := fun _ => none
    entity_versions := fun _ => none }

/-- The loop `for stored_event in popped: del(self._by_id[stored_event.event_id])`
inside `remove_entity`.  Python's `del` raises `KeyError` on a missing key and
the deletions made before the raise remain in place. -/
def delById (m : Nat → Option StoredEvent) :
    List StoredEvent → Option PErr × (Nat → Option StoredEvent)
  | [] => (none, m)
  | e :: rest =>
    match m e.event_id with
    | some _ => delById (dRemove m e.event_id) rest
    | none => (some PErr.keyError, m)

/-- `PythonObjectsStoredEventRepository.remove_entity`: pop the entity's event
list if present, delete each popped event from the `_by_id` index, then
`del(self._entity_versions[stored_entity_id])`, which raises `KeyError` when
the entity has no entry in the version index (`del` on a defaultdict does not
invoke the default factory). -/
def remove_entity (st : Repo) (stored_entity_id : String) : Option PErr × Repo :=
  match st.by_stored_entity_id stored_entity_id with
  | some evs =>
    let st1 : Repo :=
      { st with by_stored_entity_id := dRemove st.by_stored_entity_id stored_entity_id }
    match delById st1.by_id evs with
    | (some e, m) => (some e, { st1 with by_id := m })
    | (none, m) =>
      let st2 : Repo := { st1 with by_id := m }
      match st2.entity_versions stored_entity_id with
      | some _ =>
        (none, { st2 with entity_versions := dRemove st2.entity_versions stored_entity_id })
      | none => (some PErr.keyError, st2)
  | none =>
    match st.entity_versions stored_entity_id with
    | some _ =>
      (none, { st with entity_versions := dRemove st.entity_versions stored_entity_id })
    | none => (some PErr.keyError, st)

/-- The storage branch of `append`: index the event by entity id, creating the
list when absent, and index it by event id. -/
def storeEvent (st : Repo) (stored_event : StoredEvent) : Repo :=
  let sid := stored_event.stored_entity_id
  let l := (st.by_stored_entity_id sid).getD []
  { st with
    by_stored_entity_id := dUpdate st.by_stored_entity_id sid (l ++ [stored_event])
    by_id := dUpdate st.by_id stored_event.event_id stored_event }

/-- Python's `str.endswith`, modelled over the character list of the string. -/
def str_endswith (s pat : String) : Bool := pat.data.isSuffixOf s.data

/-- The tail of `append` after the concurrency checks: a stored event whose
topic ends with `'Discarded'` removes the entity, any other event is stored. -/
def store_or_remove (st : Repo) (stored_event : StoredEvent) : Option PErr × Repo :=
  if str_endswith stored_event.event_topic "Discarded" then
    remove_entity st stored_event.stored_entity_id
  else
    (none, storeEvent st stored_event)

/-- `PythonObjectsStoredEventRepository.append`.  When `new_version` is given,
the access `self._entity_versions[stored_entity_id]` materializes an (empty)
entry for the entity even on the error paths; the later access
`versions[new_version]` consumes the single 0 of the per-version iterator, so
the "first to write this event" check fails exactly when that version key was
accessed before. -/
def appendPO (st : Repo) (stored_event : StoredEvent)
    (expected_version new_version : Option Nat) : Option PErr × Repo :=
  let sid := stored_event.stored_entity_id
  match new_version with
  | none => store_or_remove st stored_event
  | some nv =>
    let versions := (st.entity_versions sid).getD []
    let st1 : Repo := { st with entity_versions := dUpdate st.entity_versions sid versions }
    match expected_version with
    | some exp =>
      if exp ∈ versions then
        if nv ∈ versions then (some PErr.concurrencyAlreadyStored, st1)
        else
          store_or_remove
            { st1 with entity_versions := dUpdate st1.entity_versions sid (versions ++ [nv]) }
            stored_event
      else (some PErr.concurrencyNotYetStored, st1)
    | none =>
      if nv ∈ versions then (some PErr.concurrencyAlreadyStored, st1)
      else
        store_or_remove
          { st1 with entity_versions := dUpdate st1.entity_versions sid (versions ++ [nv]) }
          stored_event

/-- Exclusion test of the `after` bound in `get_entity_events`.  Python's
`if after_timestamp:` treats a 0.0 timestamp like `None`, and the strictness
of the comparison flips with the query direction. -/
def excludedByAfter (query_ascending : Bool) (after_timestamp : Option Nat)
    (event_timestamp : Nat) : Bool :=
  match after_timestamp with
  | none => false
  | some a =>
    if a = 0 then false
    else if query_ascending then decide (event_timestamp ≤ a)
    else decide (event_timestamp < a)

/-- Exclusion test of the `until` bound in `get_entity_events`; on descending
queries the bound is exclusive (`event_timestamp >= until_timestamp`
excludes). -/
def excludedByUntil (query_ascending : Bool) (until_timestamp : Option Nat)
    (event_timestamp : Nat) : Bool :=
  match until_timestamp with
  | none => false
  | some u =>
    if u = 0 then false
    else if query_ascending then decide (u < event_timestamp)
    else decide (u ≤ event_timestamp)

/-- The break test `limit is not None and count >= limit` of the loop in
`get_entity_events`. -/
def limitReached : Option Nat → Nat → Bool
  | some lim, count => decide (lim ≤ count)
  | none, _ => false

/-- The filtering loop of `get_entity_events`: break when the limit is
reached, skip events excluded by the bounds, append the rest and count them.
Note that the final `query_results.reverse()` of the source sits inside the
loop body, so it runs after every accepted event. -/
def geeLoop (query_ascending results_ascending : Bool)
    (after_timestamp until_timestamp : Option Nat) (limit : Option Nat) :
    List StoredEvent → Nat → List StoredEvent → List StoredEvent
  | [], _count, query_results => query_results
  | event :: rest, count, query_results =>
    if limitReached limit count then
      query_results
    else if excludedByAfter query_ascending after_timestamp
        (timestamp_from_uuid event.event_id) then
      geeLoop query_ascending results_ascending after_timestamp until_timestamp limit
        rest count query_results
    else if excludedByUntil query_ascending until_timestamp
        (timestamp_from_uuid event.event_id) then
      geeLoop query_ascending results_ascending after_timestamp until_timestamp limit
        rest count query_results
    else
      let query_results1 := query_results ++ [event]
      let query_results2 :=
        if results_ascending = query_ascending then query_results1
        else query_results1.reverse
      geeLoop query_ascending results_ascending after_timestamp until_timestamp limit
        rest (count + 1) query_results2

/-- `PythonObjectsStoredEventRepository.get_entity_events`: copy the entity's
event list (empty when the entity is unknown), reverse it for descending
queries, convert the bounds to timestamps and run the filtering loop. -/
def get_entity_events (st : Repo) (stored_entity_id : String)
    (after until_ : Option Nat) (limit : Option Nat)
    (query_ascending results_ascending : Bool) : List StoredEvent :=
  match st.by_stored_entity_id stored_entity_id with
  | none => []
  | some l =>
    let stored_events := if query_ascending then l else l.reverse
    let after_timestamp := after.map timestamp_from_uuid
    let until_timestamp := until_.map timestamp_from_uuid
    geeLoop query_ascending results_ascending after_timestamp until_timestamp limit
      stored_events 0 []

/-- A domain event as the event store sees it: the entity id and version used
for optimistic concurrency control, the UUID1 `domain_event_id` (represented
by its timestamp), the event topic and the remaining payload. -/
structure DomainEvent where
  entity_id : String
  entity_version : Nat
  domain_event_id : Nat
  event_topic : String
  payload : String
deriving DecidableEq, Repr

/-- Modelled from the spec: `StoredEventRepository.serialize` (infrastructure/
stored_events/base.py, not under src/) maps a domain event to a storage record
carrying the sequence id, the topic and the serialized body, per the
sequenced-item mapper contract (deterministic and round-tripping). -/
def serialize (domain_event : DomainEvent) : StoredEvent :=
  { event_id := domain_event.domain_event_id
    stored_entity_id := domain_event.entity_id
    event_topic := domain_event.event_topic
    event_attrs :=
      { entity_version := domain_event.entity_version
        payload := domain_event.payload } }

/-- Modelled from the spec: `StoredEventRepository.deserialize` (base.py, not
under src/), the round-trip inverse of `serialize`. -/
def deserialize (stored_event : StoredEvent) : DomainEvent :=
  { entity_id := stored_event.stored_entity_id
    entity_version := stored_event.event_attrs.entity_version
    domain_event_id := stored_event.event_id
    event_topic := stored_event.event_topic
    payload := stored_event.event_attrs.payload }

/-- `EventStore.append`: serialize the domain event, compute the optimistic
concurrency arguments (`new_version = domain_event.entity_version`;
`expected_version = new_version - 1 if new_version else None`, where Python
truthiness sends version 0 to `None`) and delegate to the repository. -/
def esAppend (st : Repo) (domain_event : DomainEvent) : Option PErr × Repo :=
  let stored_event := serialize domain_event
  let new_version := domain_event.entity_version
  let expected_version :=
    match new_version with
    | 0 => none
    | _ => some (new_version - 1)
  appendPO st stored_event expected_version (some new_version)

/-- `EventStore.get_entity_events`.  The `is_short` branch queries the backend
descending (`query_ascending=False, results_ascending=False`) and reverses the
materialized result; the default branch queries and returns in the requested
direction.  The `page_size` branch delegates to `iterate_entity_events` of
base.py, outside src/, and is exercised by no claim, so it is not modelled. -/
def esGetEntityEvents (st : Repo) (stored_entity_id : String)
    (after until_ : Option Nat) (limit : Option Nat)
    (is_ascending : Bool) (is_short : Bool) : List DomainEvent :=
  let stored_events :=
    if is_short then
      (get_entity_events st stored_entity_id after until_ limit false false).reverse
    else
      get_entity_events st stored_entity_id after until_ limit is_ascending is_ascending
  stored_events.map deserialize

/-- State of the `Example` entity of example/domainmodel.py: its id, current
version, discarded flag and heartbeat count. -/
structure ExampleState where
  _id : String
  _version : Nat
  _is_discarded : Bool
  _count_heartbeats : Nat
deriving DecidableEq, Repr

/-- A `Example.Heartbeat` event: an originator id and version. -/
structure HeartbeatEvent where
  originator_id : String
  originator_version : Nat
deriving DecidableEq, Repr

/-- `heartbeat_mutator` of example/domainmodel.py: `_validate_originator`
(entity.py, outside src/; modelled from the spec as the check that the event
carries the entity's id and current version, failure raising an error,
modelled as `none`), then bump the heartbeat count and increment the
version. -/
def heartbeat_mutator (self : ExampleState) (event : HeartbeatEvent) :
    Option ExampleState :=
  if event.originator_id = self._id ∧ event.originator_version = self._version then
    some { self with
      _count_heartbeats := self._count_heartbeats + 1
      _version := self._version + 1 }
  else none

/-- The `while number_of_beats > 0` loop of `Example.beat_heart`: build a
`Heartbeat` with `originator_id=self._id, originator_version=self._version`,
record it in the published list, apply it, decrement the counter. -/
def beatLoop (self : ExampleState) : Nat → List HeartbeatEvent × Option ExampleState
  | 0 => ([], some self)
  | n + 1 =>
    let event : HeartbeatEvent :=
      { originator_id := self._id, originator_version := self._version }
    match heartbeat_mutator self event with
    | some self1 =>
      let r := beatLoop self1 n
      (event :: r.1, r.2)
    | none => ([event], none)

/-- `Example.beat_heart`: `_assert_not_discarded` (an exception on a discarded
entity, modelled as `none`), then the heartbeat loop; the final `publish` has
no effect on the entity or the store. -/
def beat_heart (self : ExampleState) (number_of_beats : Nat) :
    Option (List HeartbeatEvent × ExampleState) :=
  if self._is_discarded then none
  else
    match beatLoop self number_of_beats with
    | (events, some self1) => some (events, self1)
    | (_, none) => none

/-- Version keys recorded for an entity in the `_entity_versions` index (empty
when the entity has no entry). -/
def versionsList (st : Repo) (sid : String) : List Nat :=
  (st.entity_versions sid).getD []

/-- Events currently stored for an entity (empty when the entity has no
entry). -/
def storedList (st : Repo) (sid : String) : List StoredEvent :=
  (st.by_stored_entity_id sid).getD []

/-- Positions of the events currently stored for an entity, read off the
serialized bodies. -/
def storedPositions (st : Repo) (sid : String) : List Nat :=
  (storedList st sid).map (fun e => e.event_attrs.entity_version)

/-- One record-manager append call with a non-none `new_version`, as
quantified by the claims about `append`. -/
structure RCall where
  ev : StoredEvent
  expected : Option Nat
  newv : Nat
deriving DecidableEq, Repr

/-- State transition of one record-manager append call (the post-state is
defined on the error paths as well). -/
def rstep (st : Repo) (c : RCall) : Repo :=
  (appendPO st c.ev c.expected (some c.newv)).2

/-- Repository state reached from empty by a sequence of record-manager
append calls. -/
def runTrace (tr : List RCall) : Repo :=
  tr.foldl rstep emptyRepo

/-- State transition of one `EventStore.append` call. -/
def esStep (st : Repo) (e : DomainEvent) : Repo :=
  (esAppend st e).2

/-- Repository state reached from empty by a sequence of `EventStore.append`
calls. -/
def runES (tr : List DomainEvent) : Repo :=
  tr.foldl esStep emptyRepo

/-- Truncation of a result list by an optional limit. -/
def limTake {α : Type} : Option Nat → List α → List α
  | none, l => l
  | some k, l => l.take k

theorem dUpdate_apply {K V : Type} [DecidableEq K] (m : K → Option V) (k : K) (v : V)
    (k' : K) : dUpdate m k v k' = if k' = k then some v else m k' := rfl

theorem dRemove_apply {K V : Type} [DecidableEq K] (m : K → Option V) (k : K)
    (k' : K) : dRemove m k k' = if k' = k then none else m k' := rfl

/-- With no bounds and no limit, the filtering loop keeps every event. -/
theorem geeLoop_all (qa : Bool) (l : List StoredEvent) :
    ∀ (count : Nat) (acc : List StoredEvent),
      geeLoop qa qa none none none l count acc = acc ++ l := by
  induction l with
  | nil => intro count acc; simp [geeLoop]
  | cons e rest ih =>
    intro count acc
    simp [geeLoop, limitReached, excludedByAfter, excludedByUntil, ih]

/-- The default ascending read returns exactly the stored list. -/
theorem gee_default_asc (st : Repo) (sid : String) :
    get_entity_events st sid none none none true true = storedList st sid := by
  unfold get_entity_events storedList
  cases h : st.by_stored_entity_id sid with
  | none => simp
  | some l => simp [geeLoop_all]

/-- The unbounded descending read returns the stored list reversed. -/
theorem gee_default_desc (st : Repo) (sid : String) :
    get_entity_events st sid none none none false false = (storedList st sid).reverse := by
  unfold get_entity_events storedList
  cases h : st.by_stored_entity_id sid with
  | none => simp
  | some l => simp [geeLoop_all]

/-- C7: for every entity, `EventStore.get_entity_events` with `is_short=True`
and no `after`, `until` or `limit` (which queries the backend descending and
reverses the materialized result) yields exactly the same sequence of events,
in the same ascending order, as the default ascending call without
`is_short`. -/
theorem c7_short_read_equivalence (st : Repo) (stored_entity_id : String) :
    esGetEntityEvents st stored_entity_id none none none true true =
      esGetEntityEvents st stored_entity_id none none none true false := by
  unfold esGetEntityEvents
  simp [gee_default_asc, gee_default_desc]

/-- C2: `EventStore.append` calls the record manager's `append` with
`new_version` equal to the event's version, `expected_version` equal to that
version minus one when the version is non-zero and none when it is zero, and
the record obtained by serializing the event; the whole result (error and
post-state) is that of the record manager's call, so a `ConcurrencyError`
propagates unchanged and there is no other side effect. -/
theorem c2_eventstore_append_args (st : Repo) (domain_event : DomainEvent) :
    esAppend st domain_event =
      appendPO st (serialize domain_event)
        (if domain_event.entity_version = 0 then none
         else some (domain_event.entity_version - 1))
        (some domain_event.entity_version) := by
  unfold esAppend
  cases h : domain_event.entity_version with
  | zero => simp [h]
  | succ n => simp [h]

/-- The heartbeat loop builds one event per beat, carrying the entity's
version at the moment the event is built (initial version plus the number of
prior beats), and applying each event bumps the version and the count. -/
theorem beatLoop_spec (n : Nat) : ∀ (st : ExampleState),
    beatLoop st n =
      ((List.range n).map (fun i => ⟨st._id, st._version + i⟩),
        some { st with
          _version := st._version + n
          _count_heartbeats := st._count_heartbeats + n }) := by
  induction n with
  | zero => intro st; simp [beatLoop]
  | succ n ih =>
    intro st
    rw [beatLoop, heartbeat_mutator]
    rw [if_pos ⟨rfl, rfl⟩]
    simp only [ih]
    rw [List.range_succ_eq_map]
    simp only [List.map_cons, List.map_map, Prod.mk.injEq, Option.some.injEq,
      HeartbeatEvent.mk.injEq, ExampleState.mk.injEq, List.cons.injEq]
    and_intros <;>
      first
        | trivial
        | omega
        | · apply List.map_congr_left
            intro i _
            simp only [Function.comp_apply, HeartbeatEvent.mk.injEq]
            and_intros <;> first | trivial | omega

/-- C8 amended: every `Heartbeat` event constructed by `Example.beat_heart` on
a live (non-discarded) entity carries `originator_version` equal to the
entity's current version at the moment the event is built — the initial
version plus the number of beats already applied in the call — not that
version plus one; applying the event is what increments the version, so after
`n` beats the version and heartbeat count have each grown by `n`. -/
theorem c8_heartbeat_versions (st : ExampleState) (n : Nat)
    (h : st._is_discarded = false) :
    beat_heart st n =
      some ((List.range n).map (fun i => ⟨st._id, st._version + i⟩),
        { st with
          _version := st._version + n
          _count_heartbeats := st._count_heartbeats + n }) := by
  unfold beat_heart
  simp [h, beatLoop_spec]

/-- Witness for the amended C8 theorem at a concrete live entity and two
beats. -/
theorem c8_heartbeat_versions_witness :
    (ExampleState._is_discarded ⟨"e1", 3, false, 0⟩ = false) ∧
      beat_heart ⟨"e1", 3, false, 0⟩ 2 =
        some ((List.range 2).map (fun i => ⟨"e1", 3 + i⟩), ⟨"e1", 5, false, 2⟩) :=
  ⟨rfl, c8_heartbeat_versions ⟨"e1", 3, false, 0⟩ 2 rfl⟩

/-- C8 counterexample: on a live `Example` entity at version 3, the single
`Heartbeat` built by `beat_heart` carries `originator_version` 3, the current
version itself, not the current version plus one (which would be 4). -/
theorem c8_counterexample :
    (beat_heart ⟨"e1", 3, false, 0⟩ 1).map (fun r => r.1.map HeartbeatEvent.originator_version) =
        some [3] ∧
      ExampleState._version ⟨"e1", 3, false, 0⟩ + 1 = 4 ∧ (3 : Nat) ≠ 4 := by
  refine ⟨?_, rfl, by decide⟩
  rfl

/-- Errors raised inside the `_by_id` deletion loop are always `KeyError`. -/
theorem delById_err (l : List StoredEvent) :
    ∀ (m : Nat → Option StoredEvent) (e : PErr), (delById m l).1 = some e → e = PErr.keyError := by
  induction l with
  | nil => intro m e h; simp [delById] at h
  | cons ev rest ih =>
    intro m e h
    rw [delById] at h
    cases hm : m ev.event_id with
    | some _ => rw [hm] at h; exact ih _ _ h
    | none => rw [hm] at h; simp at h; exact h.symm

/-- When the popped events all sit in the `_by_id` index under pairwise
distinct event ids, the deletion loop raises nothing and removes exactly
those ids. -/
theorem delById_ok (l : List StoredEvent) :
    ∀ (m : Nat → Option StoredEvent),
      (l.map (fun e => e.event_id)).Nodup →
      (∀ e ∈ l, m e.event_id = some e) →
      (delById m l).1 = none ∧
        ∀ k, (delById m l).2 k =
          if k ∈ l.map (fun e => e.event_id) then none else m k := by
  induction l with
  | nil => intro m _ _; simp [delById]
  | cons ev rest ih =>
    intro m hnd hall
    rw [List.map_cons, List.nodup_cons] at hnd
    have hev : m ev.event_id = some ev := hall ev (List.mem_cons_self ev rest)
    rw [delById, hev]
    have hrest : ∀ e ∈ rest, (dRemove m ev.event_id) e.event_id = some e := by
      intro e he
      rw [dRemove_apply]
      rw [if_neg (by
        intro hk
        exact hnd.1 (hk ▸ List.mem_map_of_mem (fun x => x.event_id) he))]
      exact hall e (List.mem_cons_of_mem _ he)
    obtain ⟨h1, h2⟩ := ih (dRemove m ev.event_id) hnd.2 hrest
    refine ⟨h1, ?_⟩
    intro k
    rw [h2 k, dRemove_apply]
    by_cases hk : k = ev.event_id
    · simp [hk]
    · simp [hk]

/-- After `remove_entity`, whether it raises or not, the entity has no entry
in the `_by_stored_entity_id` index (the pop happens before anything can
raise). -/
theorem remove_entity_by_sid (st : Repo) (sid : String) :
    (remove_entity st sid).2.by_stored_entity_id sid = none := by
  unfold remove_entity
  cases h1 : st.by_stored_entity_id sid with
  | none =>
    cases h2 : st.entity_versions sid <;> simp [h2, h1]
  | some evs =>
    cases h2 : delById st.by_id evs with
    | mk err m =>
      cases err with
      | some e => simp [h2, dRemove_apply]
      | none =>
        cases h3 : st.entity_versions sid <;> simp [h2, h3, dRemove_apply]

/-- Removing one entity never touches another entity's event list, whether or
not the call raises. -/
theorem remove_entity_frame_by_sid (st : Repo) (sid sid2 : String) (h : sid2 ≠ sid) :
    (remove_entity st sid).2.by_stored_entity_id sid2 = st.by_stored_entity_id sid2 := by
  unfold remove_entity
  cases h1 : st.by_stored_entity_id sid with
  | none =>
    cases h2 : st.entity_versions sid <;> simp [h2]
  | some evs =>
    cases h2 : delById st.by_id evs with
    | mk err m =>
      cases err with
      | some e => simp [h2, dRemove_apply, h]
      | none =>
        cases h3 : st.entity_versions sid <;> simp [h2, h3, dRemove_apply, h]

/-- Removing one entity never touches another entity's version index entry. -/
theorem remove_entity_frame_versions (st : Repo) (sid sid2 : String) (h : sid2 ≠ sid) :
    (remove_entity st sid).2.entity_versions sid2 = st.entity_versions sid2 := by
  unfold remove_entity
  cases h1 : st.by_stored_entity_id sid with
  | none =>
    cases h2 : st.entity_versions sid <;> simp [h2, dRemove_apply, h]
  | some evs =>
    cases h2 : delById st.by_id evs with
    | mk err m =>
      cases err with
      | some e => simp [h2]
      | none =>
        cases h3 : st.entity_versions sid <;> simp [h2, h3, dRemove_apply, h]

/-- When the entity has no entry in the `_entity_versions` index,
`remove_entity` raises `KeyError` (either from the final `del` or, earlier,
from the `_by_id` deletion loop). -/
theorem remove_entity_raises_of_no_versions (st : Repo) (sid : String)
    (h : st.entity_versions sid = none) :
    (remove_entity st sid).1 = some PErr.keyError := by
  unfold remove_entity
  cases h1 : st.by_stored_entity_id sid with
  | none => simp [h]
  | some evs =>
    cases h2 : delById st.by_id evs with
    | mk err m =>
      cases err with
      | some e =>
        have := delById_err evs st.by_id e (by rw [h2])
        subst this
        simp [h2]
      | none => simp [h2, h]

/-- Well-formedness of one entity's slice of the repository: its stored events
carry pairwise distinct event ids, each present in the `_by_id` index.  Real
runs satisfy this because event ids are freshly generated UUIDs. -/
def WFsid (st : Repo) (sid : String) : Prop :=
  ((storedList st sid).map (fun e => e.event_id)).Nodup ∧
    ∀ e ∈ storedList st sid, st.by_id e.event_id = some e

/-- Full characterization of `remove_entity` on a well-formed entity slice:
it raises `KeyError` exactly when the entity has no entry in the version
index, it clears the entity's event list and version entry, it leaves every
other entity alone, and it deletes exactly the entity's event ids from the
`_by_id` index. -/
theorem remove_entity_spec (st : Repo) (sid : String) (h : WFsid st sid) :
    (remove_entity st sid).1 =
        (if (st.entity_versions sid).isSome then none else some PErr.keyError) ∧
      (remove_entity st sid).2.by_stored_entity_id sid = none ∧
      (remove_entity st sid).2.entity_versions sid = none ∧
      (∀ k, (remove_entity st sid).2.by_id k =
        if k ∈ (storedList st sid).map (fun e => e.event_id) then none else st.by_id k) := by
  obtain ⟨hnd, hall⟩ := h
  unfold remove_entity
  cases h1 : st.by_stored_entity_id sid with
  | none =>
    cases h2 : st.entity_versions sid with
    | none => simp_all [storedList]
    | some vs => simp_all [storedList, dRemove_apply]
  | some evs =>
    have hok := delById_ok evs st.by_id (by simpa [storedList, h1] using hnd)
      (by intro e he; exact hall e (by simp [storedList, h1, he]))
    cases h2 : delById st.by_id evs with
    | mk err m =>
      rw [h2] at hok
      obtain ⟨hok1, hok2⟩ := hok
      simp only at hok1
      subst hok1
      cases h3 : st.entity_versions sid with
      | none => simp_all [storedList, dRemove_apply]
      | some vs => simp_all [storedList, dRemove_apply]

/-- C9: `remove_entity(id)` raises `KeyError` whenever the id has no entry in
the `_entity_versions` index; whatever happens, the entity's events are
removed first, so every subsequent `get_entity_events` call for the id
returns the empty list; and on a well-formed slice (distinct event ids,
correctly indexed — true of real runs, where event ids are fresh UUIDs)
calling `remove_entity` twice in succession raises `KeyError` on the second
call. -/
theorem c9_remove_entity (st : Repo) (sid : String) :
    (st.entity_versions sid = none → (remove_entity st sid).1 = some PErr.keyError) ∧
      (∀ (after until_ limit : Option Nat) (qa ra : Bool),
        get_entity_events (remove_entity st sid).2 sid after until_ limit qa ra = []) ∧
      (WFsid st sid →
        (remove_entity (remove_entity st sid).2 sid).1 = some PErr.keyError) := by
  refine ⟨remove_entity_raises_of_no_versions st sid, ?_, ?_⟩
  · intro after until_ limit qa ra
    unfold get_entity_events
    rw [remove_entity_by_sid]
  · intro hwf
    exact remove_entity_raises_of_no_versions _ _ ((remove_entity_spec st sid hwf).2.2.1)

/-- Concrete entity slice used by witnesses: one stored event, correctly
indexed. -/
def evW : StoredEvent := ⟨7, "a", "Example.Created", ⟨0, "w"⟩⟩

/-- Concrete repository holding `evW` for entity `"a"` at version 0. -/
def stW : Repo :=
  { by_id := fun k => if k = 7 then some evW else none
    by_stored_entity_id := fun s => if s = "a" then some [evW] else none
    entity_versions := fun s => if s = "a" then some [0] else none }

/-- Witness for C9 at the concrete repository `stW`: the well-formedness
hypothesis holds there, the double removal raises `KeyError`, and the read
after removal is empty. -/
theorem c9_remove_entity_witness :
    WFsid stW "a" ∧
      (remove_entity (remove_entity stW "a").2 "a").1 = some PErr.keyError ∧
      get_entity_events (remove_entity stW "a").2 "a" none none none true true = [] :=
  ⟨by unfold WFsid storedList stW; decide,
    (c9_remove_entity stW "a").2.2 (by unfold WFsid storedList stW; decide),
    (c9_remove_entity stW "a").2.1 none none none true true⟩

/-- Storing an event touches no other entity's event list. -/
theorem storeEvent_frame (st : Repo) (ev : StoredEvent) (sid2 : String)
    (h : sid2 ≠ ev.stored_entity_id) :
    (storeEvent st ev).by_stored_entity_id sid2 = st.by_stored_entity_id sid2 := by
  simp [storeEvent, dUpdate_apply, h]

/-- The store-or-remove tail of `append` touches no other entity's event
list. -/
theorem store_or_remove_frame (st : Repo) (ev : StoredEvent) (sid2 : String)
    (h : sid2 ≠ ev.stored_entity_id) :
    (store_or_remove st ev).2.by_stored_entity_id sid2 = st.by_stored_entity_id sid2 := by
  unfold store_or_remove
  by_cases hd : str_endswith ev.event_topic "Discarded" = true <;>
    simp [hd, storeEvent_frame st ev sid2 h, remove_entity_frame_by_sid st _ sid2 h]

/-- With no `new_version`, `append` skips the concurrency checks entirely. -/
theorem appendPO_none_eq (st : Repo) (ev : StoredEvent) (e : Option Nat) :
    appendPO st ev e none = store_or_remove st ev := rfl

/-- Appending for one entity touches no other entity's event list, whether the
call succeeds or raises. -/
theorem appendPO_frame_by_sid (st : Repo) (ev : StoredEvent)
    (expected_version new_version : Option Nat) (sid2 : String)
    (h : sid2 ≠ ev.stored_entity_id) :
    (appendPO st ev expected_version new_version).2.by_stored_entity_id sid2 =
      st.by_stored_entity_id sid2 := by
  cases new_version with
  | none =>
    rw [appendPO_none_eq]
    exact store_or_remove_frame st ev sid2 h
  | some nv =>
    cases expected_version with
    | some exp =>
      simp only [appendPO]
      by_cases h1 : exp ∈ (st.entity_versions ev.stored_entity_id).getD []
      · rw [if_pos h1]
        by_cases h2 : nv ∈ (st.entity_versions ev.stored_entity_id).getD []
        · rw [if_pos h2]
        · rw [if_neg h2]
          exact store_or_remove_frame _ ev sid2 h
      · rw [if_neg h1]
    | none =>
      simp only [appendPO]
      by_cases h2 : nv ∈ (st.entity_versions ev.stored_entity_id).getD []
      · rw [if_pos h2]
      · rw [if_neg h2]
        exact store_or_remove_frame _ ev sid2 h

/-- C10: an `append` call for one sequence id, and a `remove_entity` call for
one sequence id, leave the result of `get_entity_events` for every other
sequence id unchanged (for every choice of bounds, limit and directions),
whether the call succeeds or raises. -/
theorem c10_other_entities_unchanged (st : Repo) (ev : StoredEvent)
    (expected_version new_version : Option Nat) (rid sid2 : String)
    (h1 : sid2 ≠ ev.stored_entity_id) (h2 : sid2 ≠ rid)
    (after until_ limit : Option Nat) (qa ra : Bool) :
    get_entity_events (appendPO st ev expected_version new_version).2 sid2
        after until_ limit qa ra =
      get_entity_events st sid2 after until_ limit qa ra ∧
    get_entity_events (remove_entity st rid).2 sid2 after until_ limit qa ra =
      get_entity_events st sid2 after until_ limit qa ra := by
  constructor
  · unfold get_entity_events
    rw [appendPO_frame_by_sid st ev expected_version new_version sid2 h1]
  · unfold get_entity_events
    rw [remove_entity_frame_by_sid st rid sid2 h2]

/-- Second concrete stored event, for entity `"b"`. -/
def evB : StoredEvent := ⟨9, "b", "Example.Created", ⟨0, "x"⟩⟩

/-- Concrete repository holding one event each for entities `"a"` and
`"b"`. -/
def stAB : Repo :=
  { by_id := fun k => if k = 7 then some evW else if k = 9 then some evB else none
    by_stored_entity_id := fun s =>
      if s = "a" then some [evW] else if s = "b" then some [evB] else none
    entity_versions := fun s =>
      if s = "a" then some [0] else if s = "b" then some [0] else none }

/-- Witness for C10 at `stAB`: an append for `"a"` and a removal of `"a"`
leave the default read of `"b"` untouched. -/
theorem c10_other_entities_unchanged_witness :
    ("b" ≠ "a") ∧
      (get_entity_events (appendPO stAB ⟨8, "a", "T", ⟨1, "y"⟩⟩ (some 0) (some 1)).2 "b"
          none none none true true =
        get_entity_events stAB "b" none none none true true ∧
      get_entity_events (remove_entity stAB "a").2 "b" none none none true true =
        get_entity_events stAB "b" none none none true true) :=
  ⟨by decide,
    c10_other_entities_unchanged stAB ⟨8, "a", "T", ⟨1, "y"⟩⟩ (some 0) (some 1) "a" "b"
      (by decide) (by decide) none none none true true⟩

/-- When `remove_entity` raises nothing, the entity's version index entry is
gone afterwards. -/
theorem remove_entity_success_versions (st : Repo) (sid : String)
    (h : (remove_entity st sid).1 = none) :
    (remove_entity st sid).2.entity_versions sid = none := by
  unfold remove_entity at h ⊢
  cases h1 : st.by_stored_entity_id sid with
  | none =>
    cases h2 : st.entity_versions sid with
    | none => rw [h1] at h; simp [h2] at h
    | some vs => simp [h1, h2, dRemove_apply]
  | some evs =>
    cases h2 : delById st.by_id evs with
    | mk err m =>
      cases err with
      | some e => rw [h1] at h; simp [h2] at h
      | none =>
        cases h3 : st.entity_versions sid with
        | none => rw [h1] at h; simp [h2, h3] at h
        | some vs => simp [h1, h2, h3, dRemove_apply]

/-- A successful `remove_entity` clears both the entity's event list and its
version index entry. -/
theorem remove_entity_success_clears (st st' : Repo) (sid : String)
    (h : remove_entity st sid = (none, st')) :
    st'.by_stored_entity_id sid = none ∧ st'.entity_versions sid = none := by
  have h2 : st' = (remove_entity st sid).2 := by rw [h]
  have h1 : (remove_entity st sid).1 = none := by rw [h]
  subst h2
  exact ⟨remove_entity_by_sid st sid, remove_entity_success_versions st sid h1⟩

/-- A successful `append` of an event whose topic ends in `'Discarded'` went
through `remove_entity`, so it leaves the entity with no event list and no
version index entry. -/
theorem append_discard_success_clears (st st' : Repo) (ev : StoredEvent)
    (expected_version new_version : Option Nat)
    (hd : str_endswith ev.event_topic "Discarded" = true)
    (h : appendPO st ev expected_version new_version = (none, st')) :
    st'.by_stored_entity_id ev.stored_entity_id = none ∧
      st'.entity_versions ev.stored_entity_id = none := by
  have hrem : ∀ stm : Repo, store_or_remove stm ev = (none, st') →
      st'.by_stored_entity_id ev.stored_entity_id = none ∧
        st'.entity_versions ev.stored_entity_id = none := by
    intro stm hsr
    unfold store_or_remove at hsr
    rw [hd] at hsr
    simp only [if_true] at hsr
    exact remove_entity_success_clears stm st' ev.stored_entity_id hsr
  cases new_version with
  | none =>
    rw [appendPO_none_eq] at h
    exact hrem st h
  | some nv =>
    cases expected_version with
    | some exp =>
      rw [show appendPO st ev (some exp) (some nv) =
        (let sid := ev.stored_entity_id
         let versions := (st.entity_versions sid).getD []
         let st1 : Repo := { st with entity_versions := dUpdate st.entity_versions sid versions }
         if exp ∈ versions then
           if nv ∈ versions then (some PErr.concurrencyAlreadyStored, st1)
           else
             store_or_remove
               { st1 with entity_versions := dUpdate st1.entity_versions sid (versions ++ [nv]) }
               ev
         else (some PErr.concurrencyNotYetStored, st1)) from rfl] at h
      simp only at h
      by_cases h1 : exp ∈ (st.entity_versions ev.stored_entity_id).getD []
      · rw [if_pos h1] at h
        by_cases h2 : nv ∈ (st.entity_versions ev.stored_entity_id).getD []
        · rw [if_pos h2] at h; simp at h
        · rw [if_neg h2] at h
          exact hrem _ h
      · rw [if_neg h1] at h; simp at h
    | none =>
      rw [show appendPO st ev none (some nv) =
        (let sid := ev.stored_entity_id
         let versions := (st.entity_versions sid).getD []
         let st1 : Repo := { st with entity_versions := dUpdate st.entity_versions sid versions }
         if nv ∈ versions then (some PErr.concurrencyAlreadyStored, st1)
         else
           store_or_remove
             { st1 with entity_versions := dUpdate st1.entity_versions sid (versions ++ [nv]) }
             ev) from rfl] at h
      simp only at h
      by_cases h2 : nv ∈ (st.entity_versions ev.stored_entity_id).getD []
      · rw [if_pos h2] at h; simp at h
      · rw [if_neg h2] at h
        exact hrem _ h

/-- An `append` whose `expected_version` is not among the entity's recorded
version keys raises the "Not yet stored version" `ConcurrencyError`. -/
theorem appendPO_expected_missing (st : Repo) (ev : StoredEvent) (exp nv : Nat)
    (h : exp ∉ (st.entity_versions ev.stored_entity_id).getD []) :
    (appendPO st ev (some exp) (some nv)).1 = some PErr.concurrencyNotYetStored := by
  simp only [appendPO]
  rw [if_neg h]

/-- C3 amended: after a `Discarded` event has been successfully appended for
an originator, every read of that originator's events returns empty, and a
subsequent append with a non-none `expected_position` — which
`EventStore.append` issues for every version except 0 — is rejected with
`ConcurrencyError`.  (An append at version 0 with no expected position
succeeds, because the discard also erased the originator's version index
entry; see the counterexample.) -/
theorem c3_discard_terminal (st st' : Repo) (ev : StoredEvent)
    (expected_version new_version : Option Nat)
    (hd : str_endswith ev.event_topic "Discarded" = true)
    (h : appendPO st ev expected_version new_version = (none, st')) :
    (∀ (after until_ limit : Option Nat) (qa ra : Bool),
      get_entity_events st' ev.stored_entity_id after until_ limit qa ra = []) ∧
      (∀ (ev2 : StoredEvent) (exp2 v2 : Nat), ev2.stored_entity_id = ev.stored_entity_id →
        (appendPO st' ev2 (some exp2) (some v2)).1 = some PErr.concurrencyNotYetStored) := by
  obtain ⟨hb, hv⟩ := append_discard_success_clears st st' ev expected_version new_version hd h
  constructor
  · intro after until_ limit qa ra
    unfold get_entity_events
    rw [hb]
  · intro ev2 exp2 v2 hsid
    apply appendPO_expected_missing
    rw [hsid, hv]
    simp

/-- Stored events used in the C3 scenario: a creation, a discard, and a fresh
creation for the same originator. -/
def c3ev0 : StoredEvent := ⟨10, "a", "Example.Created", ⟨0, "p"⟩⟩

/-- The discard event of the C3 scenario. -/
def c3ev1 : StoredEvent := ⟨11, "a", "Example.Discarded", ⟨1, "q"⟩⟩

/-- The post-discard creation event of the C3 scenario. -/
def c3ev2 : StoredEvent := ⟨12, "a", "Example.Created", ⟨0, "r"⟩⟩

/-- C3 counterexample: store a creation at version 0, successfully append a
`Discarded` at version 1, and then append a new creation at version 0 with no
expected position — the claim says any such append is rejected with
`ConcurrencyError`, but the call succeeds. -/
theorem c3_counterexample :
    (appendPO emptyRepo c3ev0 none (some 0)).1 = none ∧
      (appendPO (appendPO emptyRepo c3ev0 none (some 0)).2 c3ev1 (some 0) (some 1)).1 = none ∧
      str_endswith c3ev1.event_topic "Discarded" = true ∧
      (appendPO (appendPO (appendPO emptyRepo c3ev0 none (some 0)).2 c3ev1 (some 0) (some 1)).2
          c3ev2 none (some 0)).1 = none := by
  decide

/-- Witness for the amended C3 theorem on the concrete discard scenario. -/
theorem c3_discard_terminal_witness :
    ((appendPO (appendPO emptyRepo c3ev0 none (some 0)).2 c3ev1 (some 0) (some 1)).1 = none) ∧
      str_endswith c3ev1.event_topic "Discarded" = true ∧
      get_entity_events
          (appendPO (appendPO emptyRepo c3ev0 none (some 0)).2 c3ev1 (some 0) (some 1)).2
          c3ev1.stored_entity_id none none none true true = [] ∧
      (appendPO (appendPO (appendPO emptyRepo c3ev0 none (some 0)).2 c3ev1 (some 0) (some 1)).2
          c3ev2 (some 1) (some 2)).1 = some PErr.concurrencyNotYetStored := by
  have h1 : (appendPO (appendPO emptyRepo c3ev0 none (some 0)).2 c3ev1 (some 0) (some 1)).1 =
      none := by decide
  have hpair : appendPO (appendPO emptyRepo c3ev0 none (some 0)).2 c3ev1 (some 0) (some 1) =
      (none, (appendPO (appendPO emptyRepo c3ev0 none (some 0)).2 c3ev1 (some 0) (some 1)).2) := by
    rw [← h1]
  have hmain := c3_discard_terminal (appendPO emptyRepo c3ev0 none (some 0)).2
    (appendPO (appendPO emptyRepo c3ev0 none (some 0)).2 c3ev1 (some 0) (some 1)).2
    c3ev1 (some 0) (some 1) (by decide) hpair
  exact ⟨h1, by decide, hmain.1 none none none true true, hmain.2 c3ev2 1 2 (by decide)⟩

/-- Truncation of the remaining results given the limit and the number of
results already counted. -/
def limTakeFrom : Option Nat → Nat → List StoredEvent → List StoredEvent
  | none, _, l => l
  | some k, count, l => l.take (k - count)

/-- When the result direction matches the query direction, the filtering loop
appends exactly the events passing both bounds, truncated by the limit. -/
theorem geeLoop_eq_filter (qa : Bool) (a u : Option Nat) (lim : Option Nat)
    (l : List StoredEvent) : ∀ (count : Nat) (acc : List StoredEvent),
    geeLoop qa qa a u lim l count acc =
      acc ++ limTakeFrom lim count (l.filter (fun e =>
        !excludedByAfter qa a (timestamp_from_uuid e.event_id) &&
        !excludedByUntil qa u (timestamp_from_uuid e.event_id))) := by
  induction l with
  | nil => intro count acc; cases lim <;> simp [geeLoop, limTakeFrom]
  | cons e rest ih =>
    intro count acc
    rw [geeLoop.eq_def]
    simp only []
    by_cases hlim : limitReached lim count = true
    · rw [if_pos hlim]
      cases lim with
      | none => simp [limitReached] at hlim
      | some k =>
        simp only [limitReached, decide_eq_true_eq] at hlim
        simp [limTakeFrom, Nat.sub_eq_zero_of_le hlim]
    · rw [if_neg hlim]
      by_cases ha : excludedByAfter qa a (timestamp_from_uuid e.event_id) = true
      · rw [if_pos ha, ih]
        simp [List.filter_cons, ha]
      · rw [if_neg ha]
        by_cases hu : excludedByUntil qa u (timestamp_from_uuid e.event_id) = true
        · rw [if_pos hu, ih]
          simp [List.filter_cons, ha, hu]
        · rw [if_neg hu]
          simp only [eq_self_iff_true, if_true, ite_self, if_pos]
          rw [ih]
          rw [List.filter_cons]
          simp only [ha, hu, Bool.not_false, Bool.and_self, if_pos]
          cases lim with
          | none => simp [limTakeFrom]
          | some k =>
            simp only [limitReached, decide_eq_true_eq, Nat.not_le] at hlim
            simp only [limTakeFrom]
            rw [show k - count = (k - (count + 1)) + 1 by omega]
            simp [List.take_succ_cons]

/-- Top-level characterization of `get_entity_events` when the result
direction matches the query direction: the events of the entity, taken in the
query direction, filtered by the two bound tests and truncated by the
limit. -/
theorem gee_filter (st : Repo) (sid : String) (after until_ limit : Option Nat)
    (qa : Bool) :
    get_entity_events st sid after until_ limit qa qa =
      limTake limit
        ((if qa then storedList st sid else (storedList st sid).reverse).filter (fun e =>
          !excludedByAfter qa (after.map timestamp_from_uuid) (timestamp_from_uuid e.event_id) &&
          !excludedByUntil qa (until_.map timestamp_from_uuid) (timestamp_from_uuid e.event_id))) := by
  unfold get_entity_events
  cases h : st.by_stored_entity_id sid with
  | none =>
    cases limit <;> simp [storedList, h, limTake]
  | some l =>
    simp only [geeLoop_eq_filter, List.nil_append, storedList, h, Option.getD_some]
    cases limit <;> simp [limTakeFrom, limTake]

/-- C5 counterexample: entity `"a"` holds one record with timestamp position
5; the descending read with `until = 5` omits it although its position
satisfies the claimed bound `position ≤ until` (the code's descending `until`
test is exclusive). -/
theorem c5_counterexample :
    get_entity_events stW "a" none (some 7) none false false = [] ∧
      timestamp_from_uuid evW.event_id ≤ 7 ∧
      storedList stW "a" = [evW] := by
  refine ⟨?_, by decide, by decide⟩
  decide

/-- C5 amended: for every stored sequence and every choice of nonzero `after`
and `until` bounds (UUID1 timestamps are never zero; a zero bound is treated
by the code as absent), a read whose result direction matches the query
direction returns exactly the records whose position `p` satisfies
`after < p` when ascending and `after ≤ p` when descending, together with
`p ≤ until` when ascending but `p < until` when descending (the `until` bound
is exclusive on descending reads), taken in the query direction, up to the
given limit. -/
theorem c5_read_bounds (st : Repo) (sid : String) (after until_ limit : Option Nat)
    (qa : Bool)
    (hafter : ∀ a, after = some a → 0 < a) (huntil : ∀ u, until_ = some u → 0 < u) :
    get_entity_events st sid after until_ limit qa qa =
      limTake limit
        ((if qa then storedList st sid else (storedList st sid).reverse).filter (fun e =>
          (match after with
           | none => true
           | some a =>
             if qa then decide (a < timestamp_from_uuid e.event_id)
             else decide (a ≤ timestamp_from_uuid e.event_id)) &&
          (match until_ with
           | none => true
           | some u =>
             if qa then decide (timestamp_from_uuid e.event_id ≤ u)
             else decide (timestamp_from_uuid e.event_id < u)))) := by
  rw [gee_filter]
  congr 1
  apply List.filter_congr
  intro e _
  congr 1
  · cases after with
    | none => simp [excludedByAfter]
    | some a =>
      have ha : a ≠ 0 := Nat.pos_iff_ne_zero.mp (hafter a rfl)
      cases qa <;>
        simp [excludedByAfter, timestamp_from_uuid, ha, ← decide_not, Nat.not_le, Nat.not_lt]
  · cases until_ with
    | none => simp [excludedByUntil]
    | some u =>
      have hu : u ≠ 0 := Nat.pos_iff_ne_zero.mp (huntil u rfl)
      cases qa <;>
        simp [excludedByUntil, timestamp_from_uuid, hu, ← decide_not, Nat.not_le, Nat.not_lt]

/-- Witness for the amended C5 theorem at a concrete repository and bounds. -/
theorem c5_read_bounds_witness :
    (∀ a, (some 3 : Option Nat) = some a → 0 < a) ∧
      (∀ u, (some 9 : Option Nat) = some u → 0 < u) ∧
      get_entity_events stAB "a" (some 3) (some 9) (some 5) true true =
        limTake (some 5)
          ((if true then storedList stAB "a" else (storedList stAB "a").reverse).filter (fun e =>
            (match (some 3 : Option Nat) with
             | none => true
             | some a =>
               if true then decide (a < timestamp_from_uuid e.event_id)
               else decide (a ≤ timestamp_from_uuid e.event_id)) &&
            (match (some 9 : Option Nat) with
             | none => true
             | some u =>
               if true then decide (timestamp_from_uuid e.event_id ≤ u)
               else decide (timestamp_from_uuid e.event_id < u)))) :=
  ⟨fun a h => by simp at h; omega, fun u h => by simp at h; omega,
    c5_read_bounds stAB "a" (some 3) (some 9) (some 5) true
      (fun a h => by simp at h; omega) (fun u h => by simp at h; omega)⟩

/-- First stored event of the three-event C6 scenario. -/
def c6e1 : StoredEvent := ⟨1, "a", "Example.Created", ⟨0, "p"⟩⟩

/-- Second stored event of the three-event C6 scenario. -/
def c6e2 : StoredEvent := ⟨2, "a", "Example.AttributeChanged", ⟨1, "q"⟩⟩

/-- Third stored event of the three-event C6 scenario. -/
def c6e3 : StoredEvent := ⟨3, "a", "Example.AttributeChanged", ⟨2, "r"⟩⟩

/-- Concrete repository with three events stored for entity `"a"`. -/
def stC6 : Repo :=
  { by_id := fun k =>
      if k = 1 then some c6e1 else if k = 2 then some c6e2 else
        if k = 3 then some c6e3 else none
    by_stored_entity_id := fun s => if s = "a" then some [c6e1, c6e2, c6e3] else none
    entity_versions := fun s => if s = "a" then some [0, 1, 2] else none }

/-- C6: because the source's `query_results.reverse()` sits inside the `for`
loop, a call with `results_ascending` different from `query_ascending`
returns the matched records in an interleaved order, not in the reverse of
the matching-direction order: on three stored events, the ascending query
with descending results returns `[e3, e1, e2]`, while the reverse of the
ascending result is `[e3, e2, e1]`. -/
theorem c6_inloop_reverse_bug :
    get_entity_events stC6 "a" none none none true false = [c6e3, c6e1, c6e2] ∧
      (get_entity_events stC6 "a" none none none true true).reverse = [c6e3, c6e2, c6e1] ∧
      ([c6e3, c6e1, c6e2] : List StoredEvent) ≠ [c6e3, c6e2, c6e1] := by
  refine ⟨?_, ?_, by decide⟩ <;> decide

/-- The "Not yet stored version" error path of `append`: the state change is
only the materialization of the entity's `_entity_versions` entry, which none
of the three observation maps can see. -/
theorem appendPO_notYet_spec (st : Repo) (ev : StoredEvent) (exp nv : Nat)
    (hexp : exp ∉ versionsList st ev.stored_entity_id) :
    (appendPO st ev (some exp) (some nv)).1 = some PErr.concurrencyNotYetStored ∧
      (∀ sid, versionsList (appendPO st ev (some exp) (some nv)).2 sid = versionsList st sid) ∧
      (∀ sid, storedList (appendPO st ev (some exp) (some nv)).2 sid = storedList st sid) ∧
      (∀ k, (appendPO st ev (some exp) (some nv)).2.by_id k = st.by_id k) := by
  unfold versionsList at hexp
  simp only [appendPO]
  rw [if_neg hexp]
  refine ⟨rfl, ?_, fun sid => rfl, fun k => rfl⟩
  intro sid
  by_cases h : sid = ev.stored_entity_id <;>
    simp [versionsList, dUpdate_apply, h]

/-- The "Already stored version" error path of `append`: again only the
materialization happens. -/
theorem appendPO_already_spec (st : Repo) (ev : StoredEvent) (exp : Option Nat) (nv : Nat)
    (hexp : ∀ e, exp = some e → e ∈ versionsList st ev.stored_entity_id)
    (hnv : nv ∈ versionsList st ev.stored_entity_id) :
    (appendPO st ev exp (some nv)).1 = some PErr.concurrencyAlreadyStored ∧
      (∀ sid, versionsList (appendPO st ev exp (some nv)).2 sid = versionsList st sid) ∧
      (∀ sid, storedList (appendPO st ev exp (some nv)).2 sid = storedList st sid) ∧
      (∀ k, (appendPO st ev exp (some nv)).2.by_id k = st.by_id k) := by
  unfold versionsList at hexp hnv
  have hgoal : ∀ (r : Option PErr × Repo), r =
      (some PErr.concurrencyAlreadyStored,
        { st with entity_versions :=
            (dUpdate st.entity_versions ev.stored_entity_id
              ((st.entity_versions ev.stored_entity_id).getD [])) }) →
      r.1 = some PErr.concurrencyAlreadyStored ∧
        (∀ sid, versionsList r.2 sid = versionsList st sid) ∧
        (∀ sid, storedList r.2 sid = storedList st sid) ∧
        (∀ k, r.2.by_id k = st.by_id k) := by
    rintro r rfl
    refine ⟨rfl, ?_, fun sid => rfl, fun k => rfl⟩
    intro sid
    by_cases h : sid = ev.stored_entity_id <;>
      simp [versionsList, dUpdate_apply, h]
  apply hgoal
  cases exp with
  | none =>
    simp only [appendPO]
    rw [if_pos hnv]
  | some e =>
    simp only [appendPO]
    rw [if_pos (hexp e rfl), if_pos hnv]

/-- The successful storage path of `append`: both concurrency checks pass and
the topic is not a discard, so the version key is recorded and the event is
appended to the entity's list and to the `_by_id` index. -/
theorem appendPO_store_spec (st : Repo) (ev : StoredEvent) (exp : Option Nat) (nv : Nat)
    (hexp : ∀ e, exp = some e → e ∈ versionsList st ev.stored_entity_id)
    (hnv : nv ∉ versionsList st ev.stored_entity_id)
    (hnd : str_endswith ev.event_topic "Discarded" = false) :
    (appendPO st ev exp (some nv)).1 = none ∧
      versionsList (appendPO st ev exp (some nv)).2 ev.stored_entity_id =
        versionsList st ev.stored_entity_id ++ [nv] ∧
      storedList (appendPO st ev exp (some nv)).2 ev.stored_entity_id =
        storedList st ev.stored_entity_id ++ [ev] ∧
      (∀ sid, sid ≠ ev.stored_entity_id →
        versionsList (appendPO st ev exp (some nv)).2 sid = versionsList st sid ∧
          storedList (appendPO st ev exp (some nv)).2 sid = storedList st sid) ∧
      (∀ k, (appendPO st ev exp (some nv)).2.by_id k =
        if k = ev.event_id then some ev else st.by_id k) := by
  unfold versionsList at hexp hnv
  have hgoal : ∀ (r : Option PErr × Repo), r =
      store_or_remove
        { st with entity_versions :=
            (dUpdate
              (dUpdate st.entity_versions ev.stored_entity_id
                ((st.entity_versions ev.stored_entity_id).getD []))
              ev.stored_entity_id
              (((st.entity_versions ev.stored_entity_id).getD []) ++ [nv])) }
        ev →
      r.1 = none ∧
        versionsList r.2 ev.stored_entity_id =
          versionsList st ev.stored_entity_id ++ [nv] ∧
        storedList r.2 ev.stored_entity_id = storedList st ev.stored_entity_id ++ [ev] ∧
        (∀ sid, sid ≠ ev.stored_entity_id →
          versionsList r.2 sid = versionsList st sid ∧
            storedList r.2 sid = storedList st sid) ∧
        (∀ k, r.2.by_id k = if k = ev.event_id then some ev else st.by_id k) := by
    rintro r rfl
    unfold store_or_remove
    rw [hnd]
    simp only [Bool.false_eq_true, if_false]
    refine ⟨by trivial, ?_, ?_, ?_, ?_⟩
    · simp [versionsList, storeEvent, dUpdate_apply]
    · simp [storedList, storeEvent, dUpdate_apply]
    · intro sid hsid
      constructor
      · simp [versionsList, storeEvent, dUpdate_apply, hsid]
      · simp [storedList, storeEvent, dUpdate_apply, hsid]
    · intro k
      by_cases hk : k = ev.event_id <;> simp [storeEvent, dUpdate_apply, hk]
  apply hgoal
  cases exp with
  | none =>
    simp only [appendPO]
    rw [if_neg hnv]
  | some e =>
    simp only [appendPO]
    rw [if_pos (hexp e rfl), if_neg hnv]

/-- The successful discard path of `append` on a well-formed entity slice:
both concurrency checks pass and the topic ends in `'Discarded'`, so
`remove_entity` runs and clears the entity's list, its version entry (which
the checks just materialized, so the final `del` cannot raise) and its
`_by_id` entries. -/
theorem appendPO_discard_spec (st : Repo) (ev : StoredEvent) (exp : Option Nat) (nv : Nat)
    (hexp : ∀ e, exp = some e → e ∈ versionsList st ev.stored_entity_id)
    (hnv : nv ∉ versionsList st ev.stored_entity_id)
    (hd : str_endswith ev.event_topic "Discarded" = true)
    (hwf : WFsid st ev.stored_entity_id) :
    (appendPO st ev exp (some nv)).1 = none ∧
      versionsList (appendPO st ev exp (some nv)).2 ev.stored_entity_id = [] ∧
      storedList (appendPO st ev exp (some nv)).2 ev.stored_entity_id = [] ∧
      (∀ sid, sid ≠ ev.stored_entity_id →
        versionsList (appendPO st ev exp (some nv)).2 sid = versionsList st sid ∧
          storedList (appendPO st ev exp (some nv)).2 sid = storedList st sid) ∧
      (∀ k, (appendPO st ev exp (some nv)).2.by_id k =
        if k ∈ (storedList st ev.stored_entity_id).map (fun e => e.event_id) then none
        else st.by_id k) := by
  unfold versionsList at hexp hnv
  have hgoal : ∀ (stM : Repo),
      stM.by_stored_entity_id = st.by_stored_entity_id →
      stM.by_id = st.by_id →
      stM.entity_versions ev.stored_entity_id =
        some (((st.entity_versions ev.stored_entity_id).getD []) ++ [nv]) →
      (∀ sid, sid ≠ ev.stored_entity_id →
        stM.entity_versions sid = st.entity_versions sid) →
      ∀ (r : Option PErr × Repo), r = store_or_remove stM ev →
      r.1 = none ∧
        versionsList r.2 ev.stored_entity_id = [] ∧
        storedList r.2 ev.stored_entity_id = [] ∧
        (∀ sid, sid ≠ ev.stored_entity_id →
          versionsList r.2 sid = versionsList st sid ∧
            storedList r.2 sid = storedList st sid) ∧
        (∀ k, r.2.by_id k =
          if k ∈ (storedList st ev.stored_entity_id).map (fun e => e.event_id) then none
          else st.by_id k) := by
    intro stM hb hid hv hvother r hr
    have hwfM : WFsid stM ev.stored_entity_id := by
      unfold WFsid storedList at hwf ⊢
      rw [hb, hid]
      exact hwf
    have hspec := remove_entity_spec stM ev.stored_entity_id hwfM
    rw [show store_or_remove stM ev = remove_entity stM ev.stored_entity_id by
      unfold store_or_remove; rw [hd]; simp] at hr
    subst hr
    refine ⟨?_, ?_, ?_, ?_, ?_⟩
    · rw [hspec.1, hv]
      simp
    · unfold versionsList
      rw [hspec.2.2.1]
      rfl
    · unfold storedList
      rw [hspec.2.1]
      rfl
    · intro sid hsid
      constructor
      · unfold versionsList
        rw [remove_entity_frame_versions stM ev.stored_entity_id sid hsid, hvother sid hsid]
      · unfold storedList
        rw [remove_entity_frame_by_sid stM ev.stored_entity_id sid hsid, hb]
    · intro k
      rw [hspec.2.2.2 k, hid]
      unfold storedList
      rw [hb]
  have happly := hgoal
    { st with entity_versions :=
        (dUpdate
          (dUpdate st.entity_versions ev.stored_entity_id
            ((st.entity_versions ev.stored_entity_id).getD []))
          ev.stored_entity_id
          (((st.entity_versions ev.stored_entity_id).getD []) ++ [nv])) }
    rfl rfl (by simp [dUpdate_apply]) (by intro sid hsid; simp [dUpdate_apply, hsid])
  apply happly
  cases exp with
  | none =>
    simp only [appendPO]
    rw [if_neg hnv]
  | some e =>
    simp only [appendPO]
    rw [if_pos (hexp e rfl), if_neg hnv]

/-- Invariant of repository states reachable from empty by record-manager
appends with non-none `new_version`s: the version keys recorded for an entity
are exactly the positions of its currently stored events (read off the
serialized bodies) without duplicates, stored event ids are globally distinct
taken from the pool `used`, and the `_by_id` index is correct. -/
structure RepoInv (used : List Nat) (st : Repo) : Prop where
  verEq : ∀ sid, versionsList st sid = storedPositions st sid
  verNodup : ∀ sid, (versionsList st sid).Nodup
  idNodup : ∀ sid, ((storedList st sid).map (fun e => e.event_id)).Nodup
  idCross : ∀ s1 s2 e1 e2, e1 ∈ storedList st s1 → e2 ∈ storedList st s2 →
    e1.event_id = e2.event_id → s1 = s2
  byIdOk : ∀ sid e, e ∈ storedList st sid → st.by_id e.event_id = some e
  idsUsed : ∀ sid e, e ∈ storedList st sid → e.event_id ∈ used

/-- The invariant implies well-formedness of every entity slice. -/
theorem RepoInv.wf {used : List Nat} {st : Repo} (h : RepoInv used st) (sid : String) :
    WFsid st sid :=
  ⟨h.idNodup sid, h.byIdOk sid⟩

/-- States with identical observations share the invariant, and the pool may
grow. -/
theorem inv_of_obs (used used' : List Nat) (st st' : Repo)
    (hsub : ∀ k, k ∈ used → k ∈ used')
    (hv : ∀ sid, versionsList st' sid = versionsList st sid)
    (hs : ∀ sid, storedList st' sid = storedList st sid)
    (hb : ∀ k, st'.by_id k = st.by_id k)
    (h : RepoInv used st) : RepoInv used' st' where
  verEq sid := by
    unfold storedPositions
    rw [hv, hs]
    exact h.verEq sid
  verNodup sid := by rw [hv]; exact h.verNodup sid
  idNodup sid := by rw [hs]; exact h.idNodup sid
  idCross s1 s2 e1 e2 h1 h2 := by
    rw [hs] at h1 h2
    exact h.idCross s1 s2 e1 e2 h1 h2
  byIdOk sid e he := by
    rw [hs] at he
    rw [hb]
    exact h.byIdOk sid e he
  idsUsed sid e he := by
    rw [hs] at he
    exact hsub _ (h.idsUsed sid e he)

/-- The invariant is empty-state true. -/
theorem inv_empty : RepoInv [] emptyRepo := by
  constructor <;>
    simp [versionsList, storedList, storedPositions, emptyRepo]

/-- One record-manager append call with a fresh event id and a body recording
its own `new_version` preserves the invariant. -/
theorem inv_rstep (used : List Nat) (st : Repo) (c : RCall)
    (h : RepoInv used st) (hcons : c.ev.event_attrs.entity_version = c.newv)
    (hfresh : c.ev.event_id ∉ used) :
    RepoInv (c.ev.event_id :: used) (rstep st c) := by
  obtain ⟨ev, exp, nv⟩ := c
  simp only at hcons hfresh
  unfold rstep
  simp only
  have hsub : ∀ k, k ∈ used → k ∈ ev.event_id :: used := by
    intro k hk; exact List.mem_cons_of_mem _ hk
  have hfreshStored : ∀ sid,
      ev.event_id ∉ (storedList st sid).map (fun e => e.event_id) := by
    intro sid hmem
    obtain ⟨e', he', hid⟩ := List.mem_map.mp hmem
    exact hfresh (hid ▸ h.idsUsed sid e' he')
  by_cases hexp : ∀ e, exp = some e → e ∈ versionsList st ev.stored_entity_id
  case neg =>
    push_neg at hexp
    obtain ⟨e, he1, he2⟩ := hexp
    subst he1
    obtain ⟨_, h2, h3, h4⟩ := appendPO_notYet_spec st ev e nv he2
    exact inv_of_obs used _ st _ hsub h2 h3 h4 h
  case pos =>
  by_cases hnv : nv ∈ versionsList st ev.stored_entity_id
  · obtain ⟨_, h2, h3, h4⟩ := appendPO_already_spec st ev exp nv hexp hnv
    exact inv_of_obs used _ st _ hsub h2 h3 h4 h
  by_cases hd : str_endswith ev.event_topic "Discarded" = true
  · -- successful discard
    obtain ⟨_, hv0, hs0, hother, hbid⟩ :=
      appendPO_discard_spec st ev exp nv hexp hnv hd (h.wf ev.stored_entity_id)
    constructor
    · intro sid
      by_cases hsid : sid = ev.stored_entity_id
      · subst hsid
        unfold storedPositions
        rw [hv0, hs0]
        rfl
      · unfold storedPositions
        rw [(hother sid hsid).1, (hother sid hsid).2]
        exact h.verEq sid
    · intro sid
      by_cases hsid : sid = ev.stored_entity_id
      · subst hsid; rw [hv0]; exact List.nodup_nil
      · rw [(hother sid hsid).1]; exact h.verNodup sid
    · intro sid
      by_cases hsid : sid = ev.stored_entity_id
      · subst hsid; rw [hs0]; exact List.nodup_nil
      · rw [(hother sid hsid).2]; exact h.idNodup sid
    · intro s1 s2 e1 e2 h1 h2 heq
      by_cases hs1 : s1 = ev.stored_entity_id
      · subst hs1; rw [hs0] at h1; cases h1
      by_cases hs2 : s2 = ev.stored_entity_id
      · subst hs2; rw [hs0] at h2; cases h2
      rw [(hother s1 hs1).2] at h1
      rw [(hother s2 hs2).2] at h2
      exact h.idCross s1 s2 e1 e2 h1 h2 heq
    · intro sid e he
      by_cases hsid : sid = ev.stored_entity_id
      · subst hsid; rw [hs0] at he; cases he
      rw [(hother sid hsid).2] at he
      rw [hbid]
      rw [if_neg (by
        intro hmem
        obtain ⟨e1, he1, hid⟩ := List.mem_map.mp hmem
        exact hsid (h.idCross sid ev.stored_entity_id e e1 he he1 hid.symm))]
      exact h.byIdOk sid e he
    · intro sid e he
      by_cases hsid : sid = ev.stored_entity_id
      · subst hsid; rw [hs0] at he; cases he
      rw [(hother sid hsid).2] at he
      exact hsub _ (h.idsUsed sid e he)
  · -- successful storage
    have hd' : str_endswith ev.event_topic "Discarded" = false := by
      cases hval : str_endswith ev.event_topic "Discarded"
      · rfl
      · exact absurd hval hd
    obtain ⟨_, hv0, hs0, hother, hbid⟩ := appendPO_store_spec st ev exp nv hexp hnv hd'
    constructor
    · intro sid
      by_cases hsid : sid = ev.stored_entity_id
      · subst hsid
        unfold storedPositions
        rw [hv0, hs0, List.map_append]
        have hve := h.verEq ev.stored_entity_id
        unfold storedPositions at hve
        rw [← hve]
        simp [hcons]
      · unfold storedPositions
        rw [(hother sid hsid).1, (hother sid hsid).2]
        exact h.verEq sid
    · intro sid
      by_cases hsid : sid = ev.stored_entity_id
      · subst hsid
        rw [hv0]
        simp [List.nodup_append, h.verNodup ev.stored_entity_id, hnv]
      · rw [(hother sid hsid).1]; exact h.verNodup sid
    · intro sid
      by_cases hsid : sid = ev.stored_entity_id
      · subst hsid
        rw [hs0, List.map_append]
        simp only [List.map_cons, List.map_nil]
        rw [List.nodup_append]
        refine ⟨h.idNodup ev.stored_entity_id, List.nodup_singleton _, ?_⟩
        intro a ha hb
        simp at hb
        subst hb
        exact hfreshStored ev.stored_entity_id ha
      · rw [(hother sid hsid).2]; exact h.idNodup sid
    · intro s1 s2 e1 e2 h1 h2 heq
      by_cases hs1 : s1 = ev.stored_entity_id <;>
        by_cases hs2 : s2 = ev.stored_entity_id
      · rw [hs1, hs2]
      · subst hs1
        rw [hs0] at h1
        rw [(hother s2 hs2).2] at h2
        rcases List.mem_append.mp h1 with h1 | h1
        · exact h.idCross _ s2 e1 e2 h1 h2 heq
        · simp at h1
          subst h1
          exact absurd (heq ▸ List.mem_map_of_mem (fun e => e.event_id) h2)
            (hfreshStored s2)
      · subst hs2
        rw [hs0] at h2
        rw [(hother s1 hs1).2] at h1
        rcases List.mem_append.mp h2 with h2 | h2
        · exact h.idCross s1 _ e1 e2 h1 h2 heq
        · simp at h2
          subst h2
          exact absurd (heq ▸ List.mem_map_of_mem (fun e => e.event_id) h1)
            (hfreshStored s1)
      · rw [(hother s1 hs1).2] at h1
        rw [(hother s2 hs2).2] at h2
        exact h.idCross s1 s2 e1 e2 h1 h2 heq
    · intro sid e he
      rw [hbid]
      by_cases hsid : sid = ev.stored_entity_id
      · subst hsid
        rw [hs0] at he
        rcases List.mem_append.mp he with he | he
        · rw [if_neg (by
            intro hk
            exact hfreshStored ev.stored_entity_id
              (hk ▸ List.mem_map_of_mem (fun e => e.event_id) he))]
          exact h.byIdOk _ e he
        · simp at he
          subst he
          simp
      · rw [(hother sid hsid).2] at he
        rw [if_neg (by
          intro hk
          exact hfreshStored sid
            (hk ▸ List.mem_map_of_mem (fun e => e.event_id) he))]
        exact h.byIdOk sid e he
    · intro sid e he
      by_cases hsid : sid = ev.stored_entity_id
      · subst hsid
        rw [hs0] at he
        rcases List.mem_append.mp he with he | he
        · exact hsub _ (h.idsUsed _ e he)
        · simp at he
          subst he
          exact List.mem_cons_self _ _
      · rw [(hother sid hsid).2] at he
        exact hsub _ (h.idsUsed sid e he)

/-- Folding a trace of appends whose event ids are fresh and pairwise
distinct, and whose bodies record their versions, keeps the invariant. -/
theorem inv_foldl (tr : List RCall) : ∀ (used : List Nat) (st : Repo),
    RepoInv used st →
    (tr.map (fun c => c.ev.event_id)).Nodup →
    (∀ c ∈ tr, c.ev.event_id ∉ used) →
    (∀ c ∈ tr, c.ev.event_attrs.entity_version = c.newv) →
    ∃ used', RepoInv used' (tr.foldl rstep st) := by
  induction tr with
  | nil => intro used st h _ _ _; exact ⟨used, h⟩
  | cons c rest ih =>
    intro used st h hnd hfr hcons
    rw [List.map_cons, List.nodup_cons] at hnd
    refine ih (c.ev.event_id :: used) (rstep st c)
      (inv_rstep used st c h (hcons c (List.mem_cons_self c rest))
        (hfr c (List.mem_cons_self c rest)))
      hnd.2 ?_ ?_
    · intro c' hc' hmem
      rcases List.mem_cons.mp hmem with heq | hmem2
      · exact hnd.1 (heq ▸ List.mem_map_of_mem (fun c => c.ev.event_id) hc')
      · exact hfr c' (List.mem_cons_of_mem _ hc') hmem2
    · intro c' hc'
      exact hcons c' (List.mem_cons_of_mem _ hc')

/-- Any well-formed trace of record-manager appends reaches an invariant
state. -/
theorem inv_runTrace (tr : List RCall)
    (hids : (tr.map (fun c => c.ev.event_id)).Nodup)
    (hcons : ∀ c ∈ tr, c.ev.event_attrs.entity_version = c.newv) :
    ∃ used, RepoInv used (runTrace tr) :=
  inv_foldl tr [] emptyRepo inv_empty hids (by intro c _ hm; cases hm) hcons

/-- C1: in any state reached by a well-formed sequence of append calls with
non-none `new_version`s (fresh UUID event ids; bodies recording their
versions), a further append with non-none `new_version` `v` raises if and
only if an event is currently stored at position `v` for that sequence id or
the given `expected_position`, when not none, is not currently stored; the
error is always a `ConcurrencyError`, never a `KeyError`; and every reachable
state stores at most one event per `(sequence_id, position)` pair. -/
theorem c1_append_concurrency (tr : List RCall)
    (hids : (tr.map (fun c => c.ev.event_id)).Nodup)
    (hcons : ∀ c ∈ tr, c.ev.event_attrs.entity_version = c.newv)
    (c : RCall) :
    (((appendPO (runTrace tr) c.ev c.expected (some c.newv)).1 = none) ↔
        ¬ (c.newv ∈ storedPositions (runTrace tr) c.ev.stored_entity_id ∨
           (∃ e, c.expected = some e ∧
             e ∉ storedPositions (runTrace tr) c.ev.stored_entity_id))) ∧
      (∀ err, (appendPO (runTrace tr) c.ev c.expected (some c.newv)).1 = some err →
        err ≠ PErr.keyError) ∧
      (∀ sid, (storedPositions (runTrace tr) sid).Nodup) := by
  obtain ⟨used, h⟩ := inv_runTrace tr hids hcons
  obtain ⟨ev, exp, nv⟩ := c
  simp only
  have hnodup : ∀ sid, (storedPositions (runTrace tr) sid).Nodup := by
    intro sid
    rw [← h.verEq sid]
    exact h.verNodup sid
  have hverEq := h.verEq ev.stored_entity_id
  refine ⟨?_, ?_, hnodup⟩
  · by_cases hexp : ∀ e, exp = some e → e ∈ versionsList (runTrace tr) ev.stored_entity_id
    · by_cases hnv : nv ∈ versionsList (runTrace tr) ev.stored_entity_id
      · rw [(appendPO_already_spec (runTrace tr) ev exp nv hexp hnv).1]
        exact iff_of_false (by simp) (not_not_intro (Or.inl (hverEq ▸ hnv)))
      · have hnone : (appendPO (runTrace tr) ev exp (some nv)).1 = none := by
          by_cases hd : str_endswith ev.event_topic "Discarded" = true
          · exact (appendPO_discard_spec (runTrace tr) ev exp nv hexp hnv hd
              (h.wf ev.stored_entity_id)).1
          · have hd' : str_endswith ev.event_topic "Discarded" = false := by
              cases hval : str_endswith ev.event_topic "Discarded"
              · rfl
              · exact absurd hval hd
            exact (appendPO_store_spec (runTrace tr) ev exp nv hexp hnv hd').1
        rw [hnone]
        refine iff_of_true rfl ?_
        intro hcond
        rcases hcond with hmem | ⟨e, he1, he2⟩
        · exact hnv (hverEq ▸ hmem)
        · exact he2 (hverEq ▸ hexp e he1)
    · push_neg at hexp
      obtain ⟨e, he1, he2⟩ := hexp
      subst he1
      rw [(appendPO_notYet_spec (runTrace tr) ev e nv he2).1]
      exact iff_of_false (by simp)
        (not_not_intro (Or.inr ⟨e, rfl, fun hmem => he2 (hverEq ▸ hmem)⟩))
  · intro err herr
    by_cases hexp : ∀ e, exp = some e → e ∈ versionsList (runTrace tr) ev.stored_entity_id
    · by_cases hnv : nv ∈ versionsList (runTrace tr) ev.stored_entity_id
      · rw [(appendPO_already_spec (runTrace tr) ev exp nv hexp hnv).1] at herr
        rw [Option.some_inj] at herr
        subst herr
        decide
      · by_cases hd : str_endswith ev.event_topic "Discarded" = true
        · rw [(appendPO_discard_spec (runTrace tr) ev exp nv hexp hnv hd
            (h.wf ev.stored_entity_id)).1] at herr
          cases herr
        · have hd' : str_endswith ev.event_topic "Discarded" = false := by
            cases hval : str_endswith ev.event_topic "Discarded"
            · rfl
            · exact absurd hval hd
          rw [(appendPO_store_spec (runTrace tr) ev exp nv hexp hnv hd').1] at herr
          cases herr
    · push_neg at hexp
      obtain ⟨e, he1, he2⟩ := hexp
      subst he1
      rw [(appendPO_notYet_spec (runTrace tr) ev e nv he2).1] at herr
      rw [Option.some_inj] at herr
      subst herr
      decide

/-- Concrete one-call trace for the C1 witness: a creation stored at
position 0. -/
def c1tr : List RCall := [⟨⟨10, "a", "T.Created", ⟨0, "p"⟩⟩, none, 0⟩]

/-- Concrete conflicting call for the C1 witness: a second write at
position 0. -/
def c1c : RCall := ⟨⟨11, "a", "T.Changed", ⟨0, "q"⟩⟩, some 0, 0⟩

/-- Witness for C1: on the one-event trace the hypotheses hold by computation,
and the conflicting second write at position 0 is characterized by the
theorem. -/
theorem c1_append_concurrency_witness :
    ((c1tr.map (fun c => c.ev.event_id)).Nodup ∧
        (∀ c ∈ c1tr, c.ev.event_attrs.entity_version = c.newv)) ∧
      ((((appendPO (runTrace c1tr) c1c.ev c1c.expected (some c1c.newv)).1 = none) ↔
          ¬ (c1c.newv ∈ storedPositions (runTrace c1tr) c1c.ev.stored_entity_id ∨
             (∃ e, c1c.expected = some e ∧
               e ∉ storedPositions (runTrace c1tr) c1c.ev.stored_entity_id))) ∧
        (∀ err, (appendPO (runTrace c1tr) c1c.ev c1c.expected (some c1c.newv)).1 = some err →
          err ≠ PErr.keyError) ∧
        (∀ sid, (storedPositions (runTrace c1tr) sid).Nodup)) :=
  ⟨⟨by decide, by decide⟩,
    c1_append_concurrency c1tr (by decide) (by decide) c1c⟩

/-- Contiguity invariant: every entity's recorded version keys form the range
`0, 1, ..., n-1` in order. -/
def RangeInv (st : Repo) : Prop := ∀ sid, ∃ n, versionsList st sid = List.range n

/-- The empty repository is trivially contiguous. -/
theorem rangeInv_empty : RangeInv emptyRepo := by
  intro sid
  exact ⟨0, rfl⟩

/-- One `EventStore.append` step preserves contiguity: the optimistic
concurrency arguments it computes only ever let version `n` through on a
history `0..n-1`, and a discard resets the entity to the empty history. -/
theorem rangeInv_esStep (used : List Nat) (st : Repo) (e : DomainEvent)
    (h : RepoInv used st) (hr : RangeInv st) : RangeInv (esStep st e) := by
  cases hv : e.entity_version with
  | zero =>
    have hstep : esStep st e = (appendPO st (serialize e) none (some 0)).2 := by
      unfold esStep esAppend
      rw [hv]
    rw [hstep]
    by_cases hmem : (0 : Nat) ∈ versionsList st (serialize e).stored_entity_id
    · have spec := appendPO_already_spec st (serialize e) none 0
        (by intro x hx; cases hx) hmem
      intro sid
      rw [spec.2.1 sid]
      exact hr sid
    · by_cases hd : str_endswith (serialize e).event_topic "Discarded" = true
      · have spec := appendPO_discard_spec st (serialize e) none 0
          (by intro x hx; cases hx) hmem hd (h.wf (serialize e).stored_entity_id)
        intro sid
        by_cases hs : sid = (serialize e).stored_entity_id
        · subst hs
          rw [spec.2.1]
          exact ⟨0, rfl⟩
        · rw [(spec.2.2.2.1 sid hs).1]
          exact hr sid
      · have hd' : str_endswith (serialize e).event_topic "Discarded" = false := by
          cases hval : str_endswith (serialize e).event_topic "Discarded"
          · rfl
          · exact absurd hval hd
        have spec := appendPO_store_spec st (serialize e) none 0
          (by intro x hx; cases hx) hmem hd'
        intro sid
        by_cases hs : sid = (serialize e).stored_entity_id
        · subst hs
          rw [spec.2.1]
          obtain ⟨n, hn⟩ := hr (serialize e).stored_entity_id
          have hn0 : n = 0 := by
            by_contra hne
            apply hmem
            rw [hn]
            exact List.mem_range.mpr (Nat.pos_of_ne_zero hne)
          subst hn0
          rw [hn]
          exact ⟨1, by simp [List.range_succ]⟩
        · rw [(spec.2.2.2.1 sid hs).1]
          exact hr sid
  | succ m =>
    have hstep : esStep st e = (appendPO st (serialize e) (some m) (some (m + 1))).2 := by
      unfold esStep esAppend
      rw [hv]
      rfl
    rw [hstep]
    obtain ⟨n, hn⟩ := hr (serialize e).stored_entity_id
    by_cases hexp : m ∈ versionsList st (serialize e).stored_entity_id
    · by_cases hmem : (m + 1) ∈ versionsList st (serialize e).stored_entity_id
      · have spec := appendPO_already_spec st (serialize e) (some m) (m + 1)
          (by intro x hx; injection hx with h2; rw [← h2]; exact hexp) hmem
        intro sid
        rw [spec.2.1 sid]
        exact hr sid
      · have hmn : m + 1 = n := by
          rw [hn] at hexp hmem
          rw [List.mem_range] at hexp
          have h2 : ¬ (m + 1 < n) := fun hc => hmem (List.mem_range.mpr hc)
          omega
        by_cases hd : str_endswith (serialize e).event_topic "Discarded" = true
        · have spec := appendPO_discard_spec st (serialize e) (some m) (m + 1)
            (by intro x hx; injection hx with h2; rw [← h2]; exact hexp) hmem hd
            (h.wf (serialize e).stored_entity_id)
          intro sid
          by_cases hs : sid = (serialize e).stored_entity_id
          · subst hs
            rw [spec.2.1]
            exact ⟨0, rfl⟩
          · rw [(spec.2.2.2.1 sid hs).1]
            exact hr sid
        · have hd' : str_endswith (serialize e).event_topic "Discarded" = false := by
            cases hval : str_endswith (serialize e).event_topic "Discarded"
            · rfl
            · exact absurd hval hd
          have spec := appendPO_store_spec st (serialize e) (some m) (m + 1)
            (by intro x hx; injection hx with h2; rw [← h2]; exact hexp) hmem hd'
          intro sid
          by_cases hs : sid = (serialize e).stored_entity_id
          · subst hs
            rw [spec.2.1, hn, hmn]
            exact ⟨n + 1, by rw [List.range_succ]⟩
          · rw [(spec.2.2.2.1 sid hs).1]
            exact hr sid
    · have spec := appendPO_notYet_spec st (serialize e) m (m + 1) hexp
      intro sid
      rw [spec.2.1 sid]
      exact hr sid

/-- An `EventStore.append` step is a record-manager append step on the
serialized event with the computed concurrency arguments. -/
theorem esStep_eq_rstep (st : Repo) (e : DomainEvent) :
    esStep st e = rstep st
      ⟨serialize e,
        (match e.entity_version with
         | 0 => none
         | _ => some (e.entity_version - 1)),
        e.entity_version⟩ := rfl

/-- Folding a trace of `EventStore.append` calls with pairwise distinct fresh
event ids keeps both the repository invariant and contiguity. -/
theorem es_foldl (tr : List DomainEvent) : ∀ (used : List Nat) (st : Repo),
    RepoInv used st → RangeInv st →
    (tr.map (fun e => e.domain_event_id)).Nodup →
    (∀ e ∈ tr, e.domain_event_id ∉ used) →
    ∃ used', RepoInv used' (tr.foldl esStep st) ∧ RangeInv (tr.foldl esStep st) := by
  induction tr with
  | nil => intro used st h hr _ _; exact ⟨used, h, hr⟩
  | cons e rest ih =>
    intro used st h hr hnd hfr
    rw [List.map_cons, List.nodup_cons] at hnd
    have h1 : RepoInv (e.domain_event_id :: used) (esStep st e) := by
      rw [esStep_eq_rstep]
      exact inv_rstep used st
        ⟨serialize e,
          (match e.entity_version with
           | 0 => none
           | _ => some (e.entity_version - 1)),
          e.entity_version⟩ h rfl (hfr e (List.mem_cons_self e rest))
    have hr1 : RangeInv (esStep st e) := rangeInv_esStep used st e h hr
    refine ih (e.domain_event_id :: used) (esStep st e) h1 hr1 hnd.2 ?_
    intro e' he' hmem
    rcases List.mem_cons.mp hmem with heq | hmem2
    · exact hnd.1 (heq ▸ List.mem_map_of_mem (fun e => e.domain_event_id) he')
    · exact hfr e' (List.mem_cons_of_mem _ he') hmem2

/-- C4: in every state reachable by a sequence of `EventStore.append` calls
with pairwise distinct event ids, the positions stored for each sequence id
form the contiguous prefix `0, 1, ..., n-1` of the naturals without gaps, and
the default ascending read returns exactly those events with strictly
increasing positions `0, 1, ..., n-1`. -/
theorem c4_contiguous_versions (tr : List DomainEvent)
    (hids : (tr.map (fun e => e.domain_event_id)).Nodup) (sid : String) :
    ∃ n, storedPositions (runES tr) sid = List.range n ∧
      (get_entity_events (runES tr) sid none none none true true).map
        (fun e => e.event_attrs.entity_version) = List.range n := by
  obtain ⟨used, h, hr⟩ := es_foldl tr [] emptyRepo inv_empty rangeInv_empty hids
    (by intro e _ hm; cases hm)
  obtain ⟨n, hn⟩ := hr sid
  unfold runES
  refine ⟨n, ?_, ?_⟩
  · rw [← h.verEq sid]
    exact hn
  · rw [gee_default_asc]
    have := h.verEq sid
    unfold storedPositions at this
    rw [← this]
    exact hn

/-- Concrete `EventStore.append` trace for the C4 witness: create, change,
for entity `"a"`, then a creation for `"b"`. -/
def c4tr : List DomainEvent :=
  [⟨"a", 0, 20, "T.Created", "p"⟩, ⟨"a", 1, 21, "T.Changed", "q"⟩,
    ⟨"b", 0, 22, "T.Created", "r"⟩]

/-- Witness for C4 on the concrete trace: the distinctness hypothesis holds by
computation and entity `"a"` ends with contiguous positions. -/
theorem c4_contiguous_versions_witness :
    ((c4tr.map (fun e => e.domain_event_id)).Nodup) ∧
      ∃ n, storedPositions (runES c4tr) "a" = List.range n ∧
        (get_entity_events (runES c4tr) "a" none none none true true).map
          (fun e => e.event_attrs.entity_version) = List.range n :=
  ⟨by decide, c4_contiguous_versions c4tr (by decide) "a"⟩
